import Mathlib

/-!
Verification development for the V4-link bytecode transfer layer.

The development shallowly embeds the core of the implementation:
the CRC-8 checksum unit (crc8.cpp), the frame codec (frame.cpp /
frame.hpp), the byte-at-a-time frame reception state machine and the
command dispatcher (link.cpp), and the call-relocation routine
(relocation.hpp).  Machine integers are modelled as `Nat` with explicit
`% 2^w` where overflow matters; the external VM collaborator is an
abstract operation record `VmOps`.
-/

namespace V4Link

/-- Start-of-frame marker STX (protocol.hpp). -/
def STX : Nat := 0xA5

/-- Maximum payload size in bytes (protocol.hpp). -/
def MAX_PAYLOAD_SIZE : Nat := 512

/-- CRC-8 polynomial 0x07 (protocol.hpp). -/
def CRC8_POLY : Nat := 0x07

/-- One shift step of the inner bit loop of calc_crc8 (crc8.cpp): if the
top bit is set, shift left and xor the polynomial, else just shift left;
all arithmetic is on uint8, hence the `% 256`. -/
def crc8_bit (c : Nat) : Nat :=
  if c &&& 0x80 ≠ 0 then ((c <<< 1) ^^^ CRC8_POLY) % 256 else (c <<< 1) % 256

/-- Folding one data byte into the running CRC (crc8.cpp): xor the byte
into the accumulator, then run eight shift steps. -/
def crc8_byte (c b : Nat) : Nat := crc8_bit^[8] ((c ^^^ b) % 256)

/-- CRC-8 checksum with polynomial 0x07 and initial value 0x00
(calc_crc8, crc8.cpp). -/
def calc_crc8 (data : List Nat) : Nat := data.foldl crc8_byte 0

/-- Response error codes (errors.def, values as documented in README.md
and CHANGELOG.md). -/
inductive ErrorCode where
  | OK
  | GENERAL_ERROR
  | INVALID_FRAME
  | BUFFER_FULL
  | VM_ERROR
deriving DecidableEq, Repr

/-- Wire byte of each error code (errors.def). -/
def ErrorCode.toByte : ErrorCode → Nat
  | .OK => 0x00
  | .GENERAL_ERROR => 0x01
  | .INVALID_FRAME => 0x02
  | .BUFFER_FULL => 0x03
  | .VM_ERROR => 0x04

/-- Frame encoder (encode_frame, frame.cpp).  Fails, leaving the output
buffer untouched, when the payload exceeds MAX_PAYLOAD_SIZE; otherwise
emits [STX][LEN_L][LEN_H][CMD][DATA...][CRC8] with the CRC computed over
everything after STX. -/
def encode_frame (cmd : Nat) (data : List Nat) (out : List Nat) :
    Bool × List Nat :=
  if data.length > MAX_PAYLOAD_SIZE then (false, out)
  else
    let body := [data.length % 256, (data.length >>> 8) % 256, cmd % 256] ++ data
    (true, STX :: body ++ [calc_crc8 body])

/-- Frame CRC verification (verify_frame_crc, frame.cpp): fails closed
for buffers shorter than the 5-byte minimum, otherwise compares the
trailing byte with the CRC over everything between STX and the CRC. -/
def verify_frame_crc (frame : List Nat) : Bool :=
  if frame.length < 5 then false
  else
    let expected := frame.getD (frame.length - 1) 0
    let calculated := calc_crc8 ((frame.drop 1).take (frame.length - 2))
    expected == calculated

/-- Modelled from the spec: the frame.cpp revision implementing the
four-argument encode_ack declared in src/src/frame.hpp (response frame
with an optional extra payload) is not among the sources; following the
spec and the frame.hpp doc comment, the command slot of the wire layout
carries the error code, followed by the extra payload, and the
little-endian 16-bit length field reflects 1 + extra length. -/
def encode_ack (err : ErrorCode) (extra : List Nat) : List Nat :=
  let n := 1 + extra.length
  let body := [n % 256, (n >>> 8) % 256, err.toByte] ++ extra
  STX :: body ++ [calc_crc8 body]

/-- Reading the command and payload back from an encoded frame following
the wire layout documented in protocol.hpp: the command byte sits at
offset 3 and the payload of declared length starts at offset 4. -/
def decode_frame (frame : List Nat) : Nat × List Nat :=
  let n := frame.getD 1 0 + 256 * frame.getD 2 0
  (frame.getD 3 0, (frame.drop 4).take n)

/-! Helper lemmas about byte composition and encoded frames. -/

/-- Composing a low byte with a value shifted left by 8 is plain addition. -/
theorem lor_shiftLeft_eq_add (l h : Nat) (hl : l < 256) :
    l ||| (h <<< 8) = l + 256 * h := by
  apply Nat.eq_of_testBit_eq
  intro i
  rw [Nat.testBit_lor, Nat.testBit_shiftLeft]
  rcases Nat.lt_or_ge i 8 with hi | hi
  · have h8 : ¬ (i ≥ 8) := by omega
    simp only [h8, decide_False, Bool.false_and, Bool.or_false]
    have hmod : (l + 256 * h) % 2 ^ 8 = l := by
      have h256 : (2 : Nat) ^ 8 = 256 := by norm_num
      rw [h256, Nat.add_mul_mod_self_left l 256 h]
      exact Nat.mod_eq_of_lt hl
    calc l.testBit i = ((l + 256 * h) % 2 ^ 8).testBit i := by rw [hmod]
      _ = (l + 256 * h).testBit i := by
          rw [Nat.testBit_mod_two_pow]
          simp [hi]
  · simp only [decide_eq_true (by omega : i ≥ 8), Bool.true_and]
    have hlf : l.testBit i = false := by
      apply Nat.testBit_eq_false_of_lt
      calc l < 256 := hl
        _ = 2 ^ 8 := by norm_num
        _ ≤ 2 ^ i := Nat.pow_le_pow_right (by norm_num) hi
    rw [hlf, Bool.false_or]
    have hdiv : (l + 256 * h) >>> 8 = h := by
      rw [Nat.shiftRight_eq_div_pow]
      have h256 : (2 : Nat) ^ 8 = 256 := by norm_num
      rw [h256, Nat.add_mul_div_left l h (by norm_num : 0 < 256),
        Nat.div_eq_of_lt hl, Nat.zero_add]
    have hsr := Nat.testBit_shiftRight (i := 8) (j := i - 8) (l + 256 * h)
    rw [hdiv] at hsr
    have hieq : 8 + (i - 8) = i := by omega
    rw [hieq] at hsr
    exact hsr

/-- Splitting a 16-bit value into its two bytes and recomposing them. -/
theorem bytes_recompose (n : Nat) (h : n < 65536) :
    n % 256 + 256 * ((n >>> 8) % 256) = n := by
  rw [Nat.shiftRight_eq_div_pow]
  omega

/-- Reading just past a list reads the appended element. -/
theorem getD_concat_length (l : List Nat) (a d : Nat) :
    (l ++ [a]).getD l.length d = a := by
  simp [List.getD_eq_getElem?_getD, List.getElem?_concat_length]

/-- Any frame of the shape produced by the encoders passes
verify_frame_crc. -/
theorem verify_frame_crc_encoded (body : List Nat) (h : 3 ≤ body.length) :
    verify_frame_crc (STX :: body ++ [calc_crc8 body]) = true := by
  have hlen : (STX :: (body ++ [calc_crc8 body])).length = body.length + 2 := by
    simp
  unfold verify_frame_crc
  rw [List.cons_append] at *
  rw [hlen, if_neg (by omega)]
  have h1 : body.length + 2 - 1 = body.length + 1 := by omega
  have h2 : body.length + 2 - 2 = body.length := by omega
  rw [h1, h2, List.getD_cons_succ, getD_concat_length, List.drop_one,
    List.tail_cons, List.take_left]
  exact beq_self_eq_true _

set_option maxRecDepth 10000 in
/-- C8: the checksum of the nine ASCII bytes of the digit string
1 to 9 is exactly 0xF4, and the checksum of the empty range is 0x00
(calc_crc8, crc8.cpp). -/
theorem crc8_reference_vectors :
    calc_crc8 [49, 50, 51, 52, 53, 54, 55, 56, 57] = 0xF4 ∧
    calc_crc8 [] = 0x00 := by
  constructor
  · decide
  · decide

/-- C4: encode_ack produces [STX][LEN_L][LEN_H][error_code][extra][CRC8]
whose little-endian 16-bit length field equals 1 plus the extra payload
length; with no extra payload the output is exactly the five bytes
[0xA5][0x01][0x00][error_code][CRC8]; and the frame passes
verify_frame_crc. -/
theorem encode_ack_wire_format (err : ErrorCode) (extra : List Nat)
    (h : 1 + extra.length < 65536) :
    (encode_ack err extra).getD 1 0 + 256 * (encode_ack err extra).getD 2 0
        = 1 + extra.length ∧
    (encode_ack err extra).getD 0 0 = STX ∧
    (encode_ack err extra).getD 3 0 = err.toByte ∧
    ((encode_ack err extra).drop 4).take extra.length = extra ∧
    verify_frame_crc (encode_ack err extra) = true ∧
    encode_ack err [] = [STX, 0x01, 0x00, err.toByte,
      calc_crc8 [0x01, 0x00, err.toByte]] := by
  have hshape : encode_ack err extra
      = STX :: (1 + extra.length) % 256 :: ((1 + extra.length) >>> 8) % 256 ::
        err.toByte :: (extra ++ [calc_crc8 ([(1 + extra.length) % 256,
          ((1 + extra.length) >>> 8) % 256, err.toByte] ++ extra)]) := by
    simp [encode_ack]
  refine ⟨?_, ?_, ?_, ?_, ?_, ?_⟩
  · rw [hshape]
    simp only [List.getD_cons_succ, List.getD_cons_zero]
    exact bytes_recompose (1 + extra.length) h
  · rw [hshape]; rfl
  · rw [hshape]
    simp only [List.getD_cons_succ, List.getD_cons_zero]
  · rw [hshape]
    have hdrop : (STX :: (1 + extra.length) % 256 ::
        ((1 + extra.length) >>> 8) % 256 :: err.toByte ::
        (extra ++ [calc_crc8 ([(1 + extra.length) % 256,
          ((1 + extra.length) >>> 8) % 256, err.toByte] ++ extra)])).drop 4
        = extra ++ [calc_crc8 ([(1 + extra.length) % 256,
          ((1 + extra.length) >>> 8) % 256, err.toByte] ++ extra)] := rfl
    rw [hdrop, List.take_left extra]
  · have : verify_frame_crc (STX :: ([(1 + extra.length) % 256,
        ((1 + extra.length) >>> 8) % 256, err.toByte] ++ extra) ++
        [calc_crc8 ([(1 + extra.length) % 256,
          ((1 + extra.length) >>> 8) % 256, err.toByte] ++ extra)]) = true := by
      apply verify_frame_crc_encoded
      simp
    simpa [encode_ack] using this
  · simp [encode_ack]

/-- C5: for payloads of at most 512 bytes, encode_frame succeeds, the
command and payload read back unchanged via decode_frame, and the frame
passes verify_frame_crc; for longer payloads encode_frame fails and
leaves the output buffer untouched. -/
theorem encode_frame_roundtrip (cmd : Nat) (data out : List Nat)
    (hcmd : cmd < 256) :
    (data.length ≤ MAX_PAYLOAD_SIZE →
      (encode_frame cmd data out).1 = true ∧
      decode_frame (encode_frame cmd data out).2 = (cmd, data) ∧
      verify_frame_crc (encode_frame cmd data out).2 = true) ∧
    (MAX_PAYLOAD_SIZE < data.length →
      encode_frame cmd data out = (false, out)) := by
  constructor
  · intro hle
    have hno : ¬ data.length > MAX_PAYLOAD_SIZE := by omega
    have hshape : encode_frame cmd data out
        = (true, STX :: data.length % 256 :: (data.length >>> 8) % 256 ::
            cmd % 256 :: (data ++ [calc_crc8 ([data.length % 256,
              (data.length >>> 8) % 256, cmd % 256] ++ data)])) := by
      simp [encode_frame, hno]
    refine ⟨by rw [hshape], ?_, ?_⟩
    · rw [hshape]
      unfold decode_frame
      simp only [List.getD_cons_succ, List.getD_cons_zero]
      have hlen : data.length % 256 + 256 * ((data.length >>> 8) % 256)
          = data.length := by
        apply bytes_recompose
        have : MAX_PAYLOAD_SIZE = 512 := rfl
        omega
      rw [hlen]
      have hdrop : (STX :: data.length % 256 :: (data.length >>> 8) % 256 ::
          cmd % 256 :: (data ++ [calc_crc8 ([data.length % 256,
            (data.length >>> 8) % 256, cmd % 256] ++ data)])).drop 4
          = data ++ [calc_crc8 ([data.length % 256,
            (data.length >>> 8) % 256, cmd % 256] ++ data)] := rfl
      rw [hdrop, List.take_left data, Nat.mod_eq_of_lt hcmd]
    · rw [hshape]
      have : verify_frame_crc (STX :: ([data.length % 256,
          (data.length >>> 8) % 256, cmd % 256] ++ data) ++
          [calc_crc8 ([data.length % 256, (data.length >>> 8) % 256,
            cmd % 256] ++ data)]) = true := by
        apply verify_frame_crc_encoded
        simp
      simpa using this
  · intro hgt
    have hyes : data.length > MAX_PAYLOAD_SIZE := hgt
    simp [encode_frame, hyes]

/-- Witness for C4 at a concrete error code and extra payload. -/
theorem encode_ack_wire_format_witness :
    (encode_ack ErrorCode.VM_ERROR [0x07]).getD 1 0
      + 256 * (encode_ack ErrorCode.VM_ERROR [0x07]).getD 2 0
      = 1 + [0x07].length :=
  (encode_ack_wire_format ErrorCode.VM_ERROR [0x07] (by norm_num)).1

/-- Witness for C5 at a concrete command and payload. -/
theorem encode_frame_roundtrip_witness :
    decode_frame (encode_frame 0x10 [1, 2, 3] [9]).2 = (0x10, [1, 2, 3]) :=
  ((encode_frame_roundtrip 0x10 [1, 2, 3] [9] (by norm_num)).1
    (by norm_num [MAX_PAYLOAD_SIZE])).2.1

/-! The command dispatcher and the frame-reception state machine.
The external VM collaborator (vm_api.h) is modelled as an abstract
record of operations over an opaque VM state `σ` and word handle `W`. -/

/-- Little-endian 16-bit read at an offset of a byte list, as done with
shift-or in link.cpp. -/
def le16 (p : List Nat) (i : Nat) : Nat :=
  p.getD i 0 ||| (p.getD (i + 1) 0 <<< 8)

/-- Little-endian 32-bit read at an offset of a byte list, as done with
shift-or in link.cpp. -/
def le32 (p : List Nat) (i : Nat) : Nat :=
  p.getD i 0 ||| (p.getD (i + 1) 0 <<< 8) ||| (p.getD (i + 2) 0 <<< 16)
    ||| (p.getD (i + 3) 0 <<< 24)

/-- Abstract interface of the VM collaborator (vm_api.h), as consumed by
link.cpp.  register_word returns the new word index, negative on
failure; exec returns the execution status, negative on failure. -/
structure VmOps (σ W : Type) where
  register_word : σ → Option (List Nat) → List Nat → Int × σ
  get_word : σ → Int → Option W
  exec : σ → W → Int × σ
  resetOp : σ → σ
  ds_depth : σ → Int
  ds_copy : σ → Nat → List Int
  rs_depth : σ → Int
  rs_copy : σ → Nat → List Int
  mem_read32 : σ → Nat → Option Nat
  word_name : W → List Nat
  word_code_len : W → Nat
  word_code : W → Option (List Nat)

/-- Low response byte of a word index, as static_cast to uint8 of
wid and 0xFF in link.cpp (indices emitted are nonnegative). -/
def widLo (i : Int) : Nat := i.toNat % 256

/-- High response byte of a word index, wid shifted right by 8 then cast
to uint8. -/
def widHi (i : Int) : Nat := (i.toNat >>> 8) % 256

/-- Container magic test of handle_cmd_exec (link.cpp): payload length
at least 16 and the first four bytes spell the V4BC magic. -/
def is_v4b_container (p : List Nat) : Bool :=
  decide (16 ≤ p.length) && (p.getD 0 0 == 0x56) && (p.getD 1 0 == 0x34)
    && (p.getD 2 0 == 0x42) && (p.getD 3 0 == 0x43)

/-- Declared main-code size of a container payload: the 32-bit
little-endian field at offset 8 (link.cpp). -/
def containerCodeSize (p : List Nat) : Nat := le32 p 8

/-- Declared word count of a container payload: the 32-bit little-endian
field at offset 12, present only when version-minor at offset 5 is at
least 2 (link.cpp). -/
def containerWordCount (p : List Nat) : Nat :=
  if 2 ≤ p.getD 5 0 then le32 p 12 else 0

/-- Outcome of the word-definition registration loop of
handle_cmd_exec: normal completion, a VM registration failure, or a
bounds violation. -/
inductive WordLoopRes (σ : Type) where
  | done (storage : List (List Nat)) (vm : σ) (indices : List Int)
  | vmErr (storage : List (List Nat)) (vm : σ)
  | bounds (storage : List (List Nat)) (vm : σ)

/-- Storage component of a loop outcome. -/
def WordLoopRes.storageOf {σ : Type} : WordLoopRes σ → List (List Nat)
  | .done st _ _ => st
  | .vmErr st _ => st
  | .bounds st _ => st

/-- The word-definition registration loop of handle_cmd_exec
(link.cpp, lines 184-236): for each of the declared records read
name-length, name, code-length and code, each time checking that the
read stays within the payload; copy the code into storage, register it
with the VM, keep the returned index; pop the copy and stop with
VM_ERROR on registration failure; stop with GENERAL_ERROR on any bounds
violation. -/
def register_words_loop {σ W : Type} (M : VmOps σ W) (payload : List Nat) :
    Nat → Nat → List (List Nat) → σ → List Int → WordLoopRes σ
  | _, 0, storage, vm, indices => .done storage vm indices
  | pos, n + 1, storage, vm, indices =>
    if pos + 1 > payload.length then .bounds storage vm
    else
      let name_len := payload.getD pos 0
      if pos + 1 + name_len + 4 > payload.length then .bounds storage vm
      else
        let wname := (payload.drop (pos + 1)).take name_len
        let word_code_len := le32 payload (pos + 1 + name_len)
        if pos + 1 + name_len + 4 + word_code_len > payload.length then
          .bounds storage vm
        else
          let code := (payload.drop (pos + 1 + name_len + 4)).take word_code_len
          let storage1 := storage ++ [code]
          let r := M.register_word vm (some wname) code
          if r.1 < 0 then .vmErr storage1.dropLast r.2
          else
            register_words_loop M payload (pos + 1 + name_len + 4 + word_code_len)
              n storage1 r.2 (indices ++ [r.1])

/-- Result of handle_cmd_exec: the acknowledgement (error code plus
response payload handed to send_ack), the updated bytecode storage and
the updated VM state. -/
structure ExecOut (σ : Type) where
  ack : ErrorCode × List Nat
  storage : List (List Nat)
  vm : σ

/-- The EXEC command handler (handle_cmd_exec, link.cpp).  A payload
that starts with the container magic and is at least 16 bytes long is
parsed as a v4b container: named word records are registered first, the
main code block is registered as an anonymous word and executed with
its execution status discarded, and the response carries all word
indices.  Any other payload is copied whole, registered as a single
anonymous word and executed, the execution status again discarded, and
the response carries word-count 1 and the index. -/
def handle_cmd_exec {σ W : Type} (M : VmOps σ W) (payload : List Nat)
    (storage : List (List Nat)) (vm : σ) : ExecOut σ :=
  if is_v4b_container payload then
    let code_size := containerCodeSize payload
    let word_count := containerWordCount payload
    if 16 + code_size > payload.length then
      ⟨(.GENERAL_ERROR, []), storage, vm⟩
    else
      match register_words_loop M payload (16 + code_size) word_count
          storage vm [] with
      | .bounds st v => ⟨(.GENERAL_ERROR, []), st, v⟩
      | .vmErr st v => ⟨(.VM_ERROR, []), st, v⟩
      | .done st v indices =>
        let main_code := (payload.drop 16).take code_size
        let st1 := st ++ [main_code]
        let r := M.register_word v none main_code
        if r.1 < 0 then ⟨(.VM_ERROR, []), st1.dropLast, r.2⟩
        else
          let indices1 := indices ++ [r.1]
          let v2 := match M.get_word r.2 r.1 with
            | some w => (M.exec r.2 w).2
            | none => r.2
          ⟨(.OK, indices1.length % 256 ::
              indices1.flatMap (fun i => [widLo i, widHi i])), st1, v2⟩
  else
    let st1 := storage ++ [payload]
    let r := M.register_word vm none payload
    if r.1 < 0 then ⟨(.VM_ERROR, []), st1.dropLast, r.2⟩
    else
      let v2 := match M.get_word r.2 r.1 with
        | some w => (M.exec r.2 w).2
        | none => r.2
      ⟨(.OK, [1, widLo r.1, widHi r.1]), st1, v2⟩

/-- Serializing a 32-bit signed VM cell into four little-endian bytes,
as the byte-wise shifts and casts in handle_cmd_query_stack do under
two's complement. -/
def i32_bytes (v : Int) : List Nat :=
  let u := (v % 4294967296).toNat
  [u % 256, (u >>> 8) % 256, (u >>> 16) % 256, (u >>> 24) % 256]

/-- The QUERY_STACK handler (handle_cmd_query_stack, link.cpp): depth
and values of the data stack, then depth and values of the return
stack, VM_ERROR if either depth read fails. -/
def handle_cmd_query_stack {σ W : Type} (M : VmOps σ W) (vm : σ) :
    ErrorCode × List Nat :=
  let dsd := M.ds_depth vm
  if dsd < 0 then (.VM_ERROR, [])
  else
    let d1 := [dsd.toNat % 256]
    let d2 := if 0 < dsd then (M.ds_copy vm 256).flatMap i32_bytes else []
    let rsd := M.rs_depth vm
    if rsd < 0 then (.VM_ERROR, [])
    else
      let d3 := [rsd.toNat % 256]
      let d4 := if 0 < rsd then (M.rs_copy vm 64).flatMap i32_bytes else []
      (.OK, d1 ++ d2 ++ d3 ++ d4)

/-- Bytes contributed by one 4-byte step of the QUERY_MEMORY loop:
up to four little-endian bytes of the value, stopping at the requested
length (link.cpp). -/
def qmem_bytes (value i len : Nat) : List Nat :=
  (List.range 4).filterMap fun j =>
    if i + j < len then some ((value >>> (j * 8)) % 256) else none

/-- The word-wise memory read loop of handle_cmd_query_memory
(link.cpp): reads 32-bit words, substitutes zero for unreadable words,
and emits up to four bytes per word. -/
def qmem_loop {σ W : Type} (M : VmOps σ W) (vm : σ) (addr len i : Nat) :
    List Nat :=
  if i < len then
    let offset := (addr + i) % 4294967296
    let value := match M.mem_read32 vm offset with
      | some v => v
      | none => 0
    qmem_bytes value i len ++ qmem_loop M vm addr len (i + 4)
  else []
termination_by len - i
decreasing_by omega

/-- The QUERY_MEMORY handler (handle_cmd_query_memory, link.cpp):
INVALID_FRAME for payloads shorter than 6 bytes; otherwise reads the
4-byte address and 2-byte length (clamped to 256) and returns the raw
byte range. -/
def handle_cmd_query_memory {σ W : Type} (M : VmOps σ W)
    (payload : List Nat) (frame_len : Nat) (vm : σ) : ErrorCode × List Nat :=
  if frame_len < 6 then (.INVALID_FRAME, [])
  else
    let addr := le32 payload 0
    let len0 := le16 payload 4
    let len := if len0 > 256 then 256 else len0
    (.OK, qmem_loop M vm addr len 0)

/-- The QUERY_WORD handler (handle_cmd_query_word, link.cpp):
INVALID_FRAME for payloads shorter than 2 bytes; VM_ERROR when the word
index does not resolve; otherwise the name (length-prefixed, at most 63
bytes, stopping at a NUL) and the bytecode (16-bit length-prefixed). -/
def handle_cmd_query_word {σ W : Type} (M : VmOps σ W)
    (payload : List Nat) (frame_len : Nat) (vm : σ) : ErrorCode × List Nat :=
  if frame_len < 2 then (.INVALID_FRAME, [])
  else
    let word_idx := le16 payload 0
    match M.get_word vm (word_idx : Int) with
    | none => (.VM_ERROR, [])
    | some w =>
      let nm := M.word_name w
      let name_len := min (nm.takeWhile (· ≠ 0)).length 63
      let d1 := name_len :: nm.take name_len
      let code_len := M.word_code_len w
      let d2 := [code_len % 256, (code_len >>> 8) % 256]
      let d3 := match M.word_code w with
        | some code =>
          if 0 < code_len then (List.range code_len).map (fun i => code.getD i 0)
          else []
        | none => []
      (.OK, d1 ++ d2 ++ d3)

/-- The commands dispatched by handle_frame (link.cpp switch). -/
inductive Command where
  | exec
  | ping
  | query_stack
  | query_memory
  | query_word
  | resetVm
  | unknown
deriving DecidableEq, Repr

/-- EXEC command byte (protocol.hpp). -/
def CMD_EXEC : Nat := 0x10

/-- PING command byte (protocol.hpp). -/
def CMD_PING : Nat := 0x20

/-- RESET command byte (protocol.hpp). -/
def CMD_RESET : Nat := 0xFF

/-- Modelled from the spec: the protocol.hpp revision declaring the
QUERY_STACK command byte is not among the sources (the in-tree
protocol.hpp predates the query commands used by link.cpp); the value
here is a placeholder distinct from every other command byte, which is
all the claims depend on. -/
def CMD_QUERY_STACK : Nat := 0x30

/-- Modelled from the spec: placeholder QUERY_MEMORY command byte,
distinct from every other command byte (see CMD_QUERY_STACK). -/
def CMD_QUERY_MEMORY : Nat := 0x31

/-- Modelled from the spec: placeholder QUERY_WORD command byte,
distinct from every other command byte (see CMD_QUERY_STACK). -/
def CMD_QUERY_WORD : Nat := 0x32

/-- Classification of a received command byte, as the switch over the
Command enum in handle_frame (link.cpp); unrecognized bytes fall to the
default arm. -/
def decode_command (b : Nat) : Command :=
  if b = CMD_EXEC then .exec
  else if b = CMD_PING then .ping
  else if b = CMD_QUERY_STACK then .query_stack
  else if b = CMD_QUERY_MEMORY then .query_memory
  else if b = CMD_QUERY_WORD then .query_word
  else if b = CMD_RESET then .resetVm
  else .unknown

/-- Receiver states of the frame-reception state machine (link.hpp). -/
inductive RxState where
  | waitStx
  | waitLenL
  | waitLenH
  | waitCmd
  | waitData
  | waitCrc
deriving DecidableEq, Repr

/-- State of one Link instance (link.hpp): reception buffer, payload
cursor, receiver state, declared payload length, command byte, owned
bytecode storage, the collaborating VM state, and the reception buffer
capacity (the constructor reserves buffer_size + 4 bytes). -/
structure LinkState (σ : Type) where
  buffer : List Nat
  pos : Nat
  rx : RxState
  frame_len : Nat
  cmd : Nat
  storage : List (List Nat)
  vm : σ
  capacity : Nat

/-- Frame completion handling (handle_frame, link.cpp): verify the CRC,
then dispatch on the command byte; returns the updated state and the
list of response frames written to the transport sink. -/
def handle_frame {σ W : Type} (M : VmOps σ W) (s : LinkState σ) :
    LinkState σ × List (List Nat) :=
  if ¬ verify_frame_crc s.buffer then (s, [encode_ack .INVALID_FRAME []])
  else
    let payload := (s.buffer.drop 4).take s.frame_len
    match decode_command s.cmd with
    | .exec =>
      let r := handle_cmd_exec M payload s.storage s.vm
      ({ s with storage := r.storage, vm := r.vm },
        [encode_ack r.ack.1 r.ack.2])
    | .ping => (s, [encode_ack .OK []])
    | .query_stack =>
      let a := handle_cmd_query_stack M s.vm
      (s, [encode_ack a.1 a.2])
    | .query_memory =>
      let a := handle_cmd_query_memory M payload s.frame_len s.vm
      (s, [encode_ack a.1 a.2])
    | .query_word =>
      let a := handle_cmd_query_word M payload s.frame_len s.vm
      (s, [encode_ack a.1 a.2])
    | .resetVm =>
      ({ s with vm := M.resetOp s.vm, storage := [] }, [encode_ack .OK []])
    | .unknown => (s, [encode_ack .GENERAL_ERROR []])

/-- The byte-at-a-time receiver (feed_byte, link.cpp): one transport
byte in, zero or more response frames out. -/
def feed_byte {σ W : Type} (M : VmOps σ W) (s : LinkState σ) (b : Nat) :
    LinkState σ × List (List Nat) :=
  match s.rx with
  | .waitStx =>
    if b = STX then
      ({ s with buffer := [b], pos := 0, rx := .waitLenL }, [])
    else (s, [])
  | .waitLenL =>
    ({ s with buffer := s.buffer ++ [b], frame_len := b, rx := .waitLenH }, [])
  | .waitLenH =>
    let fl := s.frame_len ||| (b <<< 8)
    if fl > s.capacity - 4 then
      ({ s with buffer := s.buffer ++ [b], frame_len := fl, rx := .waitStx },
        [encode_ack .BUFFER_FULL []])
    else
      ({ s with buffer := s.buffer ++ [b], frame_len := fl, rx := .waitCmd },
        [])
  | .waitCmd =>
    let rx := if s.frame_len = 0 then RxState.waitCrc else RxState.waitData
    ({ s with buffer := s.buffer ++ [b], cmd := b, pos := 0, rx := rx }, [])
  | .waitData =>
    let pos := s.pos + 1
    let rx := if s.frame_len ≤ pos then RxState.waitCrc else RxState.waitData
    ({ s with buffer := s.buffer ++ [b], pos := pos, rx := rx }, [])
  | .waitCrc =>
    let s1 := { s with buffer := s.buffer ++ [b] }
    let r := handle_frame M s1
    ({ r.1 with rx := .waitStx }, r.2)

/-- Feeding a whole byte sequence, concatenating the emitted response
frames. -/
def feed_bytes {σ W : Type} (M : VmOps σ W) (s : LinkState σ) :
    List Nat → LinkState σ × List (List Nat)
  | [] => (s, [])
  | b :: rest =>
    let r1 := feed_byte M s b
    let r2 := feed_bytes M r1.1 rest
    (r2.1, r1.2 ++ r2.2)

/-- Concrete VM model used for witnesses and counterexamples: the VM
state is the list of registered (name, code) pairs, registration always
succeeds and returns the next free index, and execution always fails
with status -1. -/
def demoVm : VmOps (List (Option (List Nat) × List Nat)) Unit where
  register_word := fun s n c => ((s.length : Int), s ++ [(n, c)])
  get_word := fun _ _ => some ()
  exec := fun s _ => (-1, s)
  resetOp := fun _ => []
  ds_depth := fun _ => 0
  ds_copy := fun _ _ => []
  rs_depth := fun _ => 0
  rs_copy := fun _ _ => []
  mem_read32 := fun _ _ => none
  word_name := fun _ => []
  word_code_len := fun _ => 0
  word_code := fun _ => none

/-- Idle receiver over the demo VM, with the default 512-byte payload
buffer (capacity 512 + 4 as reserved by the constructor). -/
def demoIdle : LinkState (List (Option (List Nat) × List Nat)) :=
  { buffer := [], pos := 0, rx := .waitStx, frame_len := 0, cmd := 0,
    storage := [], vm := [], capacity := 516 }

/-- C3: when the declared little-endian payload length of a frame
exceeds what the reception buffer can hold, the receiver answers
BUFFER_FULL immediately after the length high byte — only start marker
and the two length bytes are consumed, no payload byte is required —
and returns to the wait-for-start state, leaving storage and VM
untouched. -/
theorem length_overflow_buffer_full {σ W : Type} (M : VmOps σ W)
    (s : LinkState σ) (l h : Nat) (hrx : s.rx = .waitStx) (hl : l < 256)
    (hover : s.capacity - 4 < l + 256 * h) :
    (feed_bytes M s [STX, l, h]).2 = [encode_ack .BUFFER_FULL []] ∧
    (feed_bytes M s [STX, l, h]).1.rx = .waitStx ∧
    (feed_bytes M s [STX, l, h]).1.storage = s.storage ∧
    (feed_bytes M s [STX, l, h]).1.vm = s.vm := by
  have hfl : l ||| (h <<< 8) = l + 256 * h := lor_shiftLeft_eq_add l h hl
  refine ⟨?_, ?_, ?_, ?_⟩ <;>
    simp [feed_bytes, feed_byte, hrx, hfl, hover]

/-- Witness for C3: declaring length 517 against the default 512-byte
buffer yields BUFFER_FULL after three bytes. -/
theorem length_overflow_buffer_full_witness :
    (feed_bytes demoVm demoIdle [STX, 5, 2]).2
      = [encode_ack .BUFFER_FULL []] :=
  (length_overflow_buffer_full demoVm demoIdle 5 2 rfl (by norm_num)
    (by norm_num [demoIdle])).1

/-- C6: from the wait-for-start state, any finite sequence of non-start
bytes followed by further input is handled exactly as the further input
alone — the garbage prefix is discarded byte by byte with no response
and no state change. -/
theorem garbage_prefix_self_sync {σ W : Type} (M : VmOps σ W)
    (s : LinkState σ) (hrx : s.rx = .waitStx) (frame : List Nat) :
    ∀ noise : List Nat, (∀ b ∈ noise, b ≠ STX) →
      feed_bytes M s (noise ++ frame) = feed_bytes M s frame := by
  intro noise
  induction noise with
  | nil => intro _; rfl
  | cons b rest ih =>
    intro hn
    have hb : b ≠ STX := hn b (List.mem_cons_self b rest)
    have hstep : feed_byte M s b = (s, []) := by
      simp [feed_byte, hrx, hb]
    have hcons : feed_bytes M s (b :: (rest ++ frame))
        = feed_bytes M s (rest ++ frame) := by
      simp [feed_bytes, hstep]
    rw [List.cons_append, hcons]
    exact ih (fun x hx => hn x (List.mem_cons_of_mem b hx))

/-- Witness for C6: three garbage bytes before a start marker change
nothing about its handling. -/
theorem garbage_prefix_self_sync_witness :
    feed_bytes demoVm demoIdle ([0x01, 0x02, 0x03] ++ [STX])
      = feed_bytes demoVm demoIdle [STX] :=
  garbage_prefix_self_sync demoVm demoIdle rfl [STX] [0x01, 0x02, 0x03]
    (by decide)

/-- Side-effect-free scan of the word-definition records, performing
exactly the bounds checks of register_words_loop: returns the records
parsed before any violation, and whether all declared records stayed
within the payload. -/
def scanRecords (p : List Nat) : Nat → Nat → List (List Nat × List Nat) × Bool
  | _, 0 => ([], true)
  | pos, n + 1 =>
    if pos + 1 > p.length then ([], false)
    else
      let name_len := p.getD pos 0
      if pos + 1 + name_len + 4 > p.length then ([], false)
      else
        let wname := (p.drop (pos + 1)).take name_len
        let word_code_len := le32 p (pos + 1 + name_len)
        if pos + 1 + name_len + 4 + word_code_len > p.length then ([], false)
        else
          let code := (p.drop (pos + 1 + name_len + 4)).take word_code_len
          let r := scanRecords p (pos + 1 + name_len + 4 + word_code_len) n
          ((wname, code) :: r.1, r.2)

/-- Registering a list of records with the VM in order, threading the
VM state. -/
def registerAll {σ W : Type} (M : VmOps σ W) :
    σ → List (List Nat × List Nat) → σ
  | vm, [] => vm
  | vm, r :: rest => registerAll M (M.register_word vm (some r.1) r.2).2 rest

/-- The word indices returned by registering a list of records in
order. -/
def registerIndices {σ W : Type} (M : VmOps σ W) :
    σ → List (List Nat × List Nat) → List Int
  | _, [] => []
  | vm, r :: rest =>
    (M.register_word vm (some r.1) r.2).1 ::
      registerIndices M (M.register_word vm (some r.1) r.2).2 rest

/-- When every registration succeeds, the registration loop is fully
described by the record scan: it commits exactly the scanned records
(their code buffers appended to storage, the records registered with
the VM) and ends in the bounds outcome precisely when the scan found a
violation. -/
theorem register_words_loop_eq {σ W : Type} (M : VmOps σ W)
    (hreg : ∀ v n c, 0 ≤ (M.register_word v n c).1) (p : List Nat) :
    ∀ (n pos : Nat) (st : List (List Nat)) (vm : σ) (acc : List Int),
      register_words_loop M p pos n st vm acc =
        if (scanRecords p pos n).2 then
          .done (st ++ (scanRecords p pos n).1.map Prod.snd)
            (registerAll M vm (scanRecords p pos n).1)
            (acc ++ registerIndices M vm (scanRecords p pos n).1)
        else
          .bounds (st ++ (scanRecords p pos n).1.map Prod.snd)
            (registerAll M vm (scanRecords p pos n).1) := by
  intro n
  induction n with
  | zero =>
    intro pos st vm acc
    simp [register_words_loop, scanRecords, registerAll, registerIndices]
  | succ n ih =>
    intro pos st vm acc
    simp only [register_words_loop, scanRecords]
    by_cases h1 : pos + 1 > p.length
    · simp only [if_pos h1]
      simp [registerAll, registerIndices]
    · simp only [if_neg h1]
      by_cases h2 : pos + 1 + p.getD pos 0 + 4 > p.length
      · simp only [if_pos h2]
        simp [registerAll, registerIndices]
      · simp only [if_neg h2]
        by_cases h3 : pos + 1 + p.getD pos 0 + 4
            + le32 p (pos + 1 + p.getD pos 0) > p.length
        · simp only [if_pos h3]
          simp [registerAll, registerIndices]
        · simp only [if_neg h3]
          have hnn : ¬ ((M.register_word vm
              (some ((p.drop (pos + 1)).take (p.getD pos 0)))
              ((p.drop (pos + 1 + p.getD pos 0 + 4)).take
                (le32 p (pos + 1 + p.getD pos 0)))).1 < 0) :=
            not_lt.mpr (hreg _ _ _)
          simp only [if_neg hnn]
          rw [ih]
          simp only [registerAll, registerIndices, List.map_cons,
            List.append_assoc, List.singleton_append, List.cons_append,
            List.nil_append]

/-- The registration loop never removes previously stored buffers: its
resulting storage is the incoming storage plus an appended tail. -/
theorem register_words_loop_storage_extends {σ W : Type} (M : VmOps σ W)
    (p : List Nat) :
    ∀ (n pos : Nat) (st : List (List Nat)) (vm : σ) (acc : List Int),
      ∃ t, (register_words_loop M p pos n st vm acc).storageOf = st ++ t := by
  intro n
  induction n with
  | zero =>
    intro pos st vm acc
    exact ⟨[], by simp [register_words_loop, WordLoopRes.storageOf]⟩
  | succ n ih =>
    intro pos st vm acc
    simp only [register_words_loop]
    by_cases h1 : pos + 1 > p.length
    · refine ⟨[], ?_⟩
      simp only [if_pos h1, WordLoopRes.storageOf, List.append_nil]
    · simp only [if_neg h1]
      by_cases h2 : pos + 1 + p.getD pos 0 + 4 > p.length
      · refine ⟨[], ?_⟩
        simp only [if_pos h2, WordLoopRes.storageOf, List.append_nil]
      · simp only [if_neg h2]
        by_cases h3 : pos + 1 + p.getD pos 0 + 4
            + le32 p (pos + 1 + p.getD pos 0) > p.length
        · refine ⟨[], ?_⟩
          simp only [if_pos h3, WordLoopRes.storageOf, List.append_nil]
        · simp only [if_neg h3]
          by_cases h4 : (M.register_word vm
              (some ((p.drop (pos + 1)).take (p.getD pos 0)))
              ((p.drop (pos + 1 + p.getD pos 0 + 4)).take
                (le32 p (pos + 1 + p.getD pos 0)))).1 < 0
          · refine ⟨[], ?_⟩
            simp only [if_pos h4, WordLoopRes.storageOf,
              List.dropLast_concat, List.append_nil]
          · simp only [if_neg h4]
            obtain ⟨t, ht⟩ := ih
              (pos + 1 + p.getD pos 0 + 4 + le32 p (pos + 1 + p.getD pos 0))
              (st ++ [(p.drop (pos + 1 + p.getD pos 0 + 4)).take
                (le32 p (pos + 1 + p.getD pos 0))])
              (M.register_word vm
                (some ((p.drop (pos + 1)).take (p.getD pos 0)))
                ((p.drop (pos + 1 + p.getD pos 0 + 4)).take
                  (le32 p (pos + 1 + p.getD pos 0)))).2
              (acc ++ [(M.register_word vm
                (some ((p.drop (pos + 1)).take (p.getD pos 0)))
                ((p.drop (pos + 1 + p.getD pos 0 + 4)).take
                  (le32 p (pos + 1 + p.getD pos 0)))).1])
            refine ⟨[(p.drop (pos + 1 + p.getD pos 0 + 4)).take
              (le32 p (pos + 1 + p.getD pos 0))] ++ t, ?_⟩
            rw [ht, List.append_assoc]

/-- The EXEC handler never removes previously stored buffers: its
resulting storage is the incoming storage plus an appended tail. -/
theorem handle_cmd_exec_storage_extends {σ W : Type} (M : VmOps σ W)
    (payload : List Nat) (st : List (List Nat)) (vm : σ) :
    ∃ t, (handle_cmd_exec M payload st vm).storage = st ++ t := by
  unfold handle_cmd_exec
  by_cases hc : is_v4b_container payload
  · simp only [if_pos hc]
    by_cases hsz : 16 + containerCodeSize payload > payload.length
    · exact ⟨[], by simp [if_pos hsz]⟩
    · simp only [if_neg hsz]
      obtain ⟨t, ht⟩ := register_words_loop_storage_extends M payload
        (containerWordCount payload) (16 + containerCodeSize payload) st vm []
      cases hres : register_words_loop M payload
          (16 + containerCodeSize payload) (containerWordCount payload)
          st vm [] with
      | bounds st' v =>
        rw [hres] at ht
        exact ⟨t, by simpa [WordLoopRes.storageOf] using ht⟩
      | vmErr st' v =>
        rw [hres] at ht
        exact ⟨t, by simpa [WordLoopRes.storageOf] using ht⟩
      | done st' v idx =>
        rw [hres] at ht
        simp only [WordLoopRes.storageOf] at ht
        by_cases h4 : (M.register_word v none
            ((payload.drop 16).take (containerCodeSize payload))).1 < 0
        · refine ⟨t, ?_⟩
          simp only [if_pos h4, List.dropLast_concat]
          exact ht
        · refine ⟨t ++ [(payload.drop 16).take (containerCodeSize payload)], ?_⟩
          simp only [if_neg h4]
          rw [ht, List.append_assoc]
  · simp only [if_neg hc]
    by_cases h4 : (M.register_word vm none payload).1 < 0
    · exact ⟨[], by simp [if_pos h4, List.dropLast_concat]⟩
    · exact ⟨[payload], by simp [if_neg h4]⟩

/-- C9: across one completed frame, the bytecode storage is cleared
only by a dispatched RESET, grows only under a dispatched EXEC, and is
left unchanged by PING, the three queries, unrecognized commands and
CRC-invalid frames. -/
theorem storage_lifecycle {σ W : Type} (M : VmOps σ W) (s : LinkState σ) :
    (verify_frame_crc s.buffer = false →
      (handle_frame M s).1.storage = s.storage) ∧
    (decode_command s.cmd = .resetVm → verify_frame_crc s.buffer = true →
      (handle_frame M s).1.storage = []) ∧
    (decode_command s.cmd = .ping ∨ decode_command s.cmd = .query_stack ∨
        decode_command s.cmd = .query_memory ∨
        decode_command s.cmd = .query_word ∨
        decode_command s.cmd = .unknown →
      (handle_frame M s).1.storage = s.storage) ∧
    (s.storage.length < (handle_frame M s).1.storage.length →
      verify_frame_crc s.buffer = true ∧ decode_command s.cmd = .exec) ∧
    (s.storage ≠ [] → (handle_frame M s).1.storage = [] →
      verify_frame_crc s.buffer = true ∧ decode_command s.cmd = .resetVm) := by
  by_cases hv : verify_frame_crc s.buffer = true
  · cases hcmd : decode_command s.cmd with
    | exec =>
      obtain ⟨t, ht⟩ := handle_cmd_exec_storage_extends M
        ((s.buffer.drop 4).take s.frame_len) s.storage s.vm
      have hst : (handle_frame M s).1.storage = s.storage ++ t := by
        simp only [handle_frame, hv, not_true_eq_false, if_false, hcmd]
        exact ht
      refine ⟨?_, ?_, ?_, ?_, ?_⟩
      · intro hf
        rw [hf] at hv
        exact absurd hv (by simp)
      · intro hr
        exact absurd hr (by decide)
      · intro hd
        rcases hd with h | h | h | h | h <;> exact absurd h (by decide)
      · intro _
        exact ⟨hv, rfl⟩
      · intro hne hz
        rw [hst] at hz
        exact absurd hz (by simp [hne])
    | resetVm =>
      have hst : (handle_frame M s).1.storage = [] := by
        simp [handle_frame, hv, hcmd]
      refine ⟨?_, fun _ _ => hst, ?_, ?_, fun _ _ => ⟨hv, rfl⟩⟩
      · intro hf
        rw [hf] at hv
        exact absurd hv (by simp)
      · intro hd
        rcases hd with h | h | h | h | h <;> exact absurd h (by decide)
      · intro hlt
        rw [hst] at hlt
        exact absurd hlt (by simp)
    | ping =>
      have hst : (handle_frame M s).1.storage = s.storage := by
        simp [handle_frame, hv, hcmd]
      refine ⟨?_, ?_, fun _ => hst, ?_, ?_⟩
      · intro hf
        rw [hf] at hv
        exact absurd hv (by simp)
      · intro hr
        exact absurd hr (by decide)
      · intro hlt
        rw [hst] at hlt
        exact absurd hlt (by simp)
      · intro hne hz
        rw [hst] at hz
        exact absurd hz hne
    | query_stack =>
      have hst : (handle_frame M s).1.storage = s.storage := by
        simp [handle_frame, hv, hcmd]
      refine ⟨?_, ?_, fun _ => hst, ?_, ?_⟩
      · intro hf
        rw [hf] at hv
        exact absurd hv (by simp)
      · intro hr
        exact absurd hr (by decide)
      · intro hlt
        rw [hst] at hlt
        exact absurd hlt (by simp)
      · intro hne hz
        rw [hst] at hz
        exact absurd hz hne
    | query_memory =>
      have hst : (handle_frame M s).1.storage = s.storage := by
        simp [handle_frame, hv, hcmd]
      refine ⟨?_, ?_, fun _ => hst, ?_, ?_⟩
      · intro hf
        rw [hf] at hv
        exact absurd hv (by simp)
      · intro hr
        exact absurd hr (by decide)
      · intro hlt
        rw [hst] at hlt
        exact absurd hlt (by simp)
      · intro hne hz
        rw [hst] at hz
        exact absurd hz hne
    | query_word =>
      have hst : (handle_frame M s).1.storage = s.storage := by
        simp [handle_frame, hv, hcmd]
      refine ⟨?_, ?_, fun _ => hst, ?_, ?_⟩
      · intro hf
        rw [hf] at hv
        exact absurd hv (by simp)
      · intro hr
        exact absurd hr (by decide)
      · intro hlt
        rw [hst] at hlt
        exact absurd hlt (by simp)
      · intro hne hz
        rw [hst] at hz
        exact absurd hz hne
    | unknown =>
      have hst : (handle_frame M s).1.storage = s.storage := by
        simp [handle_frame, hv, hcmd]
      refine ⟨?_, ?_, fun _ => hst, ?_, ?_⟩
      · intro hf
        rw [hf] at hv
        exact absurd hv (by simp)
      · intro hr
        exact absurd hr (by decide)
      · intro hlt
        rw [hst] at hlt
        exact absurd hlt (by simp)
      · intro hne hz
        rw [hst] at hz
        exact absurd hz hne
  · have hst : (handle_frame M s).1.storage = s.storage := by
      simp [handle_frame, hv]
    refine ⟨fun _ => hst, fun _ hvv => absurd hvv hv, fun _ => hst, ?_, ?_⟩
    · intro hlt
      rw [hst] at hlt
      exact absurd hlt (by simp)
    · intro hne hz
      rw [hst] at hz
      exact absurd hz hne

/-- Witness for C9: a CRC-valid PING frame leaves a nonempty storage
unchanged. -/
theorem storage_lifecycle_witness :
    (handle_frame demoVm { demoIdle with
        buffer := [STX, 0, 0, CMD_PING, calc_crc8 [0, 0, CMD_PING]],
        cmd := CMD_PING, storage := [[0x51]] }).1.storage = [[0x51]] :=
  (storage_lifecycle demoVm { demoIdle with
      buffer := [STX, 0, 0, CMD_PING, calc_crc8 [0, 0, CMD_PING]],
      cmd := CMD_PING, storage := [[0x51]] }).2.2.1 (Or.inl (by decide))

/-- C2: for a container EXEC payload whose record area declares a name
or code length reaching past the payload end, and a VM accepting every
registration, the whole request is answered GENERAL_ERROR while every
record scanned before the violation stays committed: its code buffer
remains appended to storage and it remains registered with the VM —
the abort is not transactional. -/
theorem exec_container_bounds_abort {σ W : Type} (M : VmOps σ W)
    (hreg : ∀ v n c, 0 ≤ (M.register_word v n c).1)
    (payload : List Nat) (st : List (List Nat)) (vm : σ)
    (hc : is_v4b_container payload = true)
    (hsz : ¬ 16 + containerCodeSize payload > payload.length)
    (hscan : (scanRecords payload (16 + containerCodeSize payload)
      (containerWordCount payload)).2 = false) :
    (handle_cmd_exec M payload st vm).ack = (.GENERAL_ERROR, []) ∧
    (handle_cmd_exec M payload st vm).storage
      = st ++ (scanRecords payload (16 + containerCodeSize payload)
          (containerWordCount payload)).1.map Prod.snd ∧
    (handle_cmd_exec M payload st vm).vm
      = registerAll M vm (scanRecords payload
          (16 + containerCodeSize payload)
          (containerWordCount payload)).1 := by
  have hloop := register_words_loop_eq M hreg payload
    (containerWordCount payload) (16 + containerCodeSize payload) st vm []
  rw [if_neg (by rw [hscan]; simp)] at hloop
  unfold handle_cmd_exec
  simp only [if_pos hc, if_neg hsz, hloop]
  simp

/-- Container payload for the C2 witness: magic, version 0.2,
code-size 0, word-count 2; the first record defines word A with one
code byte, the second record declares a 9-byte name with only the
payload end behind it. -/
def c2payload : List Nat :=
  [0x56, 0x34, 0x42, 0x43, 0, 2, 0, 0, 0, 0, 0, 0, 2, 0, 0, 0,
   1, 0x41, 1, 0, 0, 0, 0x51, 9]

/-- Witness for C2: the truncated second record aborts the request
with GENERAL_ERROR while word A stays stored and registered. -/
theorem exec_container_bounds_abort_witness :
    (handle_cmd_exec demoVm c2payload [] []).ack = (.GENERAL_ERROR, []) ∧
    (handle_cmd_exec demoVm c2payload [] []).storage = [[0x51]] ∧
    (handle_cmd_exec demoVm c2payload [] []).vm
      = [(some [0x41], [0x51])] := by
  have h := exec_container_bounds_abort demoVm
    (by intro v n c; exact Int.natCast_nonneg _) c2payload [] []
    (by decide) (by decide) (by decide)
  refine ⟨h.1, ?_, ?_⟩
  · rw [h.2.1]
    decide
  · rw [h.2.2]
    decide

/-- Bare 16-byte container payload for the C1 counterexample: magic,
version 0.0, code-size 0, no word records. -/
def c1payload : List Nat :=
  [0x56, 0x34, 0x42, 0x43, 0, 0, 0, 0, 0, 0, 0, 0, 0, 0, 0, 0]

/-- Counterexample to C1 as stated: over a VM whose execution always
fails with status -1, a valid container whose registrations succeed is
still answered OK — the main block execution status is discarded, so an
execution failure is not reported as VM_ERROR. -/
theorem exec_main_failure_counterexample :
    is_v4b_container c1payload = true ∧
    (demoVm.exec [] ()).1 < 0 ∧
    (handle_cmd_exec demoVm c1payload [] []).ack = (ErrorCode.OK, [1, 0, 0]) ∧
    ErrorCode.OK ≠ ErrorCode.VM_ERROR := by
  refine ⟨by decide, by decide, by decide, by decide⟩

/-- C1 (amended): on both EXEC paths only registration failures are
reported as VM_ERROR and the execution status of the registered code is
discarded: a well-formed container whose registrations all succeed is
answered OK carrying the word indices regardless of how execution of
the main block fares, and a bare (non-container) payload whose
registration succeeds is answered OK carrying word-count 1 and the word
index regardless of how execution of that word fares. -/
theorem exec_response_ignores_execution {σ W : Type} (M : VmOps σ W)
    (hreg : ∀ v n c, 0 ≤ (M.register_word v n c).1)
    (payload : List Nat) (st : List (List Nat)) (vm : σ) :
    (is_v4b_container payload = true →
      ¬ 16 + containerCodeSize payload > payload.length →
      (scanRecords payload (16 + containerCodeSize payload)
        (containerWordCount payload)).2 = true →
      (handle_cmd_exec M payload st vm).ack.1 = ErrorCode.OK) ∧
    (is_v4b_container payload = false →
      (handle_cmd_exec M payload st vm).ack
        = (ErrorCode.OK, [1, widLo (M.register_word vm none payload).1,
            widHi (M.register_word vm none payload).1])) := by
  constructor
  · intro hc hsz hscan
    have hloop := register_words_loop_eq M hreg payload
      (containerWordCount payload) (16 + containerCodeSize payload) st vm []
    rw [if_pos hscan] at hloop
    unfold handle_cmd_exec
    simp only [if_pos hc, if_neg hsz, hloop]
    rw [if_neg (not_lt.mpr (hreg _ _ _))]
  · intro hc
    unfold handle_cmd_exec
    simp only [hc, Bool.false_eq_true, if_false,
      if_neg (not_lt.mpr (hreg vm none payload))]

/-- Witness for the amended C1: the 16-byte container and a bare
one-byte payload are both answered OK over the always-failing demo
VM. -/
theorem exec_response_ignores_execution_witness :
    (handle_cmd_exec demoVm c1payload [] []).ack.1 = ErrorCode.OK ∧
    (handle_cmd_exec demoVm [0x51] [] []).ack = (ErrorCode.OK, [1, 0, 0]) := by
  have h1 := exec_response_ignores_execution demoVm
    (by intro v n c; exact Int.natCast_nonneg _) c1payload [] []
  have h2 := exec_response_ignores_execution demoVm
    (by intro v n c; exact Int.natCast_nonneg _) [0x51] [] []
  refine ⟨h1.1 (by decide) (by decide) (by decide), ?_⟩
  have := h2.2 (by decide)
  simpa [demoVm, widLo, widHi] using this

/-- C10: a payload that begins with the container magic but is shorter
than 16 bytes is not rejected as malformed: it takes the bare-bytecode
path — stored whole, registered as one anonymous word, executed with
its status discarded, answered OK with word-count 1 and its index. -/
theorem short_magic_payload_bare {σ W : Type} (M : VmOps σ W)
    (payload : List Nat) (st : List (List Nat)) (vm : σ)
    (_hmagic : payload.take 4 = [0x56, 0x34, 0x42, 0x43])
    (hshort : payload.length < 16)
    (hreg : 0 ≤ (M.register_word vm none payload).1) :
    (handle_cmd_exec M payload st vm).ack
      = (ErrorCode.OK, [1, widLo (M.register_word vm none payload).1,
          widHi (M.register_word vm none payload).1]) ∧
    (handle_cmd_exec M payload st vm).storage = st ++ [payload] ∧
    (handle_cmd_exec M payload st vm).vm
      = (match M.get_word (M.register_word vm none payload).2
            (M.register_word vm none payload).1 with
         | some w => (M.exec (M.register_word vm none payload).2 w).2
         | none => (M.register_word vm none payload).2) := by
  have hc : is_v4b_container payload = false := by
    unfold is_v4b_container
    have hlt : ¬ (16 ≤ payload.length) := by omega
    simp [hlt]
  unfold handle_cmd_exec
  simp only [hc, Bool.false_eq_true, if_false, if_neg (not_lt.mpr hreg)]
  simp

/-- Witness for C10: the four magic bytes alone are registered and
answered OK. -/
theorem short_magic_payload_bare_witness :
    (handle_cmd_exec demoVm [0x56, 0x34, 0x42, 0x43] [] []).ack
      = (ErrorCode.OK, [1, 0, 0]) ∧
    (handle_cmd_exec demoVm [0x56, 0x34, 0x42, 0x43] [] []).storage
      = [[0x56, 0x34, 0x42, 0x43]] := by
  have h := short_magic_payload_bare demoVm [0x56, 0x34, 0x42, 0x43] [] []
    (by decide) (by decide) (by decide)
  refine ⟨?_, by rw [h.2.1]; decide⟩
  rw [h.1]
  decide

/-! The call relocator. -/

/-- Modelled from the spec: relocation.cpp, the implementation of
relocate_calls declared in relocation.hpp, is not among the sources
(only the header and tests/test_relocation.cpp are).  Operand widths
follow the spec (a 2-byte call operand, a 16-byte wide instruction, a
4-byte literal operand) and the opcodes exercised by the tests: LIT
0x00 carries a 4-byte operand, JMP 0x40 and CALL 0x50 2-byte operands,
SYS 0x60 a 16-byte operand, LIT_U8 0x76 a 1-byte operand, and the
remaining opcodes none. -/
def operand_len (op : Nat) : Nat :=
  if op = 0x00 then 4
  else if op = 0x40 then 2
  else if op = 0x50 then 2
  else if op = 0x60 then 16
  else if op = 0x76 then 1
  else 0

/-- Modelled from the spec: the instruction walk of relocate_calls.
At each opcode, a call instruction's 2-byte little-endian operand is
incremented by the offset modulo 2^16 and written back in place; any
other opcode's operand bytes are skipped unread; a truncated final
instruction (operand bytes missing) stops the walk without reading
past the end. -/
def reloc_walk (offset : Nat) : List Nat → List Nat
  | [] => []
  | op :: rest =>
    if op = 0x50 then
      match rest with
      | lo :: hi :: rest2 =>
        let idx := ((lo ||| (hi <<< 8)) + offset) % 65536
        op :: idx % 256 :: (idx >>> 8) % 256 :: reloc_walk offset rest2
      | _ => op :: rest
    else
      if rest.length < operand_len op then op :: rest
      else op :: (rest.take (operand_len op)
        ++ reloc_walk offset (rest.drop (operand_len op)))
termination_by l => l.length
decreasing_by
  · simp
    omega
  · simp [List.length_drop]
    omega

/-- Modelled from the spec: relocate_calls walks the buffer in place;
a zero offset is a documented no-op.  A negative C offset corresponds
to its two's-complement residue modulo 2^16 here. -/
def relocate_calls (code : List Nat) (offset : Nat) : List Nat :=
  if offset = 0 then code else reloc_walk offset code

/-- Wire bytes of one decoded instruction: opcode then operand bytes. -/
def instr_bytes (i : Nat × List Nat) : List Nat := i.1 :: i.2

/-- A well-formed decoded instruction: the operand length matches the
opcode's width and the operand bytes are bytes. -/
def wf_instr (i : Nat × List Nat) : Prop :=
  i.2.length = operand_len i.1 ∧ ∀ b ∈ i.2, b < 256

/-- Intended effect of relocation on one decoded instruction: a call
has the little-endian value of its two operand bytes incremented by the
offset modulo 2^16; every other instruction is untouched. -/
def reloc_instr (offset : Nat) : Nat × List Nat → Nat × List Nat
  | (op, args) =>
    if op = 0x50 then
      match args with
      | [lo, hi] =>
        (op, [((lo + 256 * hi + offset) % 65536) % 256,
          ((lo + 256 * hi + offset) % 65536) / 256])
      | _ => (op, args)
    else (op, args)

/-- A zero offset leaves every well-formed instruction untouched even
at the per-instruction level. -/
theorem reloc_instr_zero (i : Nat × List Nat) (h : wf_instr i) :
    reloc_instr 0 i = i := by
  obtain ⟨op, args⟩ := i
  obtain ⟨hlen, hb⟩ := h
  simp only [reloc_instr]
  by_cases hop : op = 0x50
  · subst hop
    have h2 : args.length = 2 := by simpa [operand_len] using hlen
    obtain ⟨lo, hi, rfl⟩ := List.length_eq_two.mp h2
    have hlo : lo < 256 := hb lo (by simp)
    have hhi : hi < 256 := hb hi (by simp)
    have hv : lo + 256 * hi < 65536 := by omega
    simp only [if_pos rfl, Nat.add_zero, Nat.mod_eq_of_lt hv]
    have e1 : (lo + 256 * hi) % 256 = lo := by omega
    have e2 : (lo + 256 * hi) / 256 = hi := by omega
    rw [e1, e2]
    simp
  · simp [hop]

/-- The walk is a homomorphism over well-formed instruction sequences,
leaving a trailing truncated instruction untouched. -/
theorem reloc_walk_flatten (offset : Nat) (suffix : List Nat)
    (hsuffix : suffix = [] ∨ ∃ op tail, suffix = op :: tail ∧
      tail.length < operand_len op) :
    ∀ instrs : List (Nat × List Nat), (∀ i ∈ instrs, wf_instr i) →
      reloc_walk offset ((instrs.map instr_bytes).flatten ++ suffix)
        = ((instrs.map (reloc_instr offset)).map instr_bytes).flatten
            ++ suffix := by
  intro instrs
  induction instrs with
  | nil =>
    intro _
    simp only [List.map_nil, List.flatten_nil, List.nil_append]
    rcases hsuffix with h | ⟨op, tail, hs, hlen⟩
    · rw [h]
      simp [reloc_walk]
    · rw [hs]
      by_cases hop : op = 0x50
      · subst hop
        have h2 : tail.length < 2 := by simpa [operand_len] using hlen
        rcases tail with _ | ⟨x, _ | ⟨y, t⟩⟩
        · simp [reloc_walk]
        · simp [reloc_walk]
        · exfalso
          simp at h2
          omega
      · rw [reloc_walk.eq_def]
        simp only [if_neg hop, if_pos hlen]
  | cons i rest ih =>
    intro hwf
    obtain ⟨op, args⟩ := i
    obtain ⟨hlen, hbytes⟩ := hwf (op, args) (by simp)
    have hwfrest : ∀ j ∈ rest, wf_instr j := fun j hj => hwf j (by simp [hj])
    simp only [List.map_cons, List.flatten_cons, List.append_assoc]
    by_cases hop : op = 0x50
    · subst hop
      have h2 : args.length = 2 := by simpa [operand_len] using hlen
      obtain ⟨lo, hi, rfl⟩ := List.length_eq_two.mp h2
      have hlo : lo < 256 := hbytes lo (by simp)
      have hhi : hi < 256 := hbytes hi (by simp)
      simp only [instr_bytes, List.cons_append, List.nil_append,
        reloc_walk, if_true]
      rw [lor_shiftLeft_eq_add lo hi hlo]
      have hidx : (lo + 256 * hi + offset) % 65536 < 65536 :=
        Nat.mod_lt _ (by norm_num)
      have hsh : ((lo + 256 * hi + offset) % 65536) >>> 8
          = ((lo + 256 * hi + offset) % 65536) / 256 := by
        rw [Nat.shiftRight_eq_div_pow]
      have hm : ((lo + 256 * hi + offset) % 65536) / 256 % 256
          = ((lo + 256 * hi + offset) % 65536) / 256 := by
        apply Nat.mod_eq_of_lt
        omega
      rw [hsh, hm, ih hwfrest]
      simp [reloc_instr, instr_bytes]
    · simp only [instr_bytes, List.cons_append, List.nil_append]
      rw [reloc_walk.eq_def]
      have hge : ¬ ((args ++ ((rest.map instr_bytes).flatten ++ suffix)).length
          < operand_len op) := by
        simp only [List.length_append, hlen]
        omega
      simp only [if_neg hop, if_neg hge]
      rw [← hlen, List.take_left, List.drop_left, ih hwfrest]
      simp [reloc_instr, hop, instr_bytes]

/-- C7: with offset 0 relocate_calls is a byte-for-byte no-op on every
buffer; with any offset, over a buffer made of well-formed instructions
(optionally ending in a truncated final instruction) exactly the call
instructions have their 2-byte little-endian operand incremented by the
offset modulo 65536 in place, every other byte — including the operands
of the 16-byte-wide instruction and of the 4-byte literal — is
unchanged, and the truncated tail is left untouched without reading
past the buffer end. -/
theorem relocate_calls_spec :
    (∀ code : List Nat, relocate_calls code 0 = code) ∧
    (∀ (offset : Nat) (instrs : List (Nat × List Nat)),
      (∀ i ∈ instrs, wf_instr i) →
      relocate_calls (instrs.map instr_bytes).flatten offset
        = ((instrs.map (reloc_instr offset)).map instr_bytes).flatten) ∧
    (∀ (offset : Nat) (instrs : List (Nat × List Nat)) (op : Nat)
        (tail : List Nat),
      (∀ i ∈ instrs, wf_instr i) → tail.length < operand_len op →
      relocate_calls ((instrs.map instr_bytes).flatten ++ op :: tail) offset
        = ((instrs.map (reloc_instr offset)).map instr_bytes).flatten
            ++ op :: tail) := by
  refine ⟨fun code => by simp [relocate_calls], ?_, ?_⟩
  · intro offset instrs hwf
    by_cases h0 : offset = 0
    · subst h0
      have hmap : instrs.map (reloc_instr 0) = instrs :=
        List.map_congr_left (fun i hi => reloc_instr_zero i (hwf i hi))
          |>.trans (List.map_id instrs)
      rw [hmap]
      simp [relocate_calls]
    · unfold relocate_calls
      rw [if_neg h0]
      have := reloc_walk_flatten offset [] (Or.inl rfl) instrs hwf
      simpa using this
  · intro offset instrs op tail hwf htail
    by_cases h0 : offset = 0
    · subst h0
      have hmap : instrs.map (reloc_instr 0) = instrs :=
        List.map_congr_left (fun i hi => reloc_instr_zero i (hwf i hi))
          |>.trans (List.map_id instrs)
      rw [hmap]
      simp [relocate_calls]
    · unfold relocate_calls
      rw [if_neg h0]
      exact reloc_walk_flatten offset (op :: tail)
        (Or.inr ⟨op, tail, rfl, htail⟩) instrs hwf

/-- Witness for C7, following the mixed-opcode relocation test: a
4-byte literal, a call to word 0, a 16-byte-wide instruction, a second
call to word 2, a return, and a truncated trailing literal, relocated
by 4. -/
theorem relocate_calls_spec_witness :
    relocate_calls
      ((([(0x00, [10, 0, 0, 0]), (0x50, [0, 0]),
          (0x60, [0, 0, 0, 0, 0, 0, 0, 0, 0, 0, 0, 0, 0, 0, 0, 0]),
          (0x50, [2, 0]), (0x51, [])].map instr_bytes).flatten)
        ++ 0x76 :: []) 4
      = (([(0x00, [10, 0, 0, 0]), (0x50, [4, 0]),
          (0x60, [0, 0, 0, 0, 0, 0, 0, 0, 0, 0, 0, 0, 0, 0, 0, 0]),
          (0x50, [6, 0]), (0x51, [])].map instr_bytes).flatten)
        ++ 0x76 :: [] := by
  have h := relocate_calls_spec.2.2 4
    [(0x00, [10, 0, 0, 0]), (0x50, [0, 0]),
      (0x60, [0, 0, 0, 0, 0, 0, 0, 0, 0, 0, 0, 0, 0, 0, 0, 0]),
      (0x50, [2, 0]), (0x51, [])] 0x76 []
    (by
      intro i hi
      fin_cases hi <;> exact ⟨by decide, by decide⟩)
    (by decide)
  rw [h]
  decide

end V4Link
